import Mathlib

/-!
Verification development for the python-extended-stats metrics engine.

The repository computes static metrics over Python source files.  Tree-based
metrics receive a list of parsed modules (`ast.Module` values) and traverse
them with `ast.walk`; text-based metrics receive the files as lists of raw
lines (the result of `readlines`, so a line keeps its trailing newline and
`strip` removes surrounding whitespace).

We embed the Python AST fragment the metrics inspect as the inductive type
`Node` below, and each metric function as a Lean function over `Node` lists
or over `List (List String)` (files as lists of raw lines).  Python dicts
are embedded as insertion-ordered association lists (`dictSet` keeps the
position of an existing key and replaces its value, exactly like assignment
into a Python dict); Python sets of strings are embedded as duplicate-free
lists grown by `setInsert`, whose length, membership, union and disjointness
agree with the Python set operations.
-/

/-- Python AST fragment used by the metrics.  Every constructor that models a
Python statement or expression carries its `lineno`; `module` and
`compClause` (an `ast.comprehension`) model the two node kinds the metrics
meet that have no `lineno` attribute.  Field order follows the `_fields`
order of the corresponding `ast` node, which is the order `ast.iter_child_nodes`
(and hence `ast.walk`) enumerates children. -/
inductive Node : Type where
  | module (body : List Node)
  | classDef (lineno : Nat) (name : String) (bases : List Node) (body : List Node)
  | functionDef (lineno : Nat) (name : String) (args : List String) (body : List Node)
  | asyncFunctionDef (lineno : Nat) (name : String) (args : List String) (body : List Node)
  | assign (lineno : Nat) (targets : List Node) (value : Node)
  | annAssign (lineno : Nat) (target : Node) (value : Node)
  | exprStmt (lineno : Nat) (value : Node)
  | ifS (lineno : Nat) (test : Node) (body : List Node) (orelse : List Node)
  | forS (lineno : Nat) (target : Node) (iter : Node) (body : List Node) (orelse : List Node)
  | asyncForS (lineno : Nat) (target : Node) (iter : Node) (body : List Node) (orelse : List Node)
  | whileS (lineno : Nat) (test : Node) (body : List Node) (orelse : List Node)
  | withS (lineno : Nat) (items : List Node) (body : List Node)
  | asyncWithS (lineno : Nat) (items : List Node) (body : List Node)
  | tryS (lineno : Nat) (body : List Node) (handlers : List Node) (orelse : List Node) (finalbody : List Node)
  | exceptHandler (lineno : Nat) (body : List Node)
  | raiseS (lineno : Nat)
  | assertS (lineno : Nat) (test : Node)
  | passS (lineno : Nat)
  | returnS (lineno : Nat) (value : Node)
  | boolOp (lineno : Nat) (values : List Node)
  | ifExp (lineno : Nat) (test : Node) (body : Node) (orelse : Node)
  | callE (lineno : Nat) (func : Node) (args : List Node)
  | attributeE (lineno : Nat) (value : Node) (attr : String)
  | nameE (lineno : Nat) (id : String)
  | constE (lineno : Nat)
  | listComp (lineno : Nat) (elt : Node) (generators : List Node)
  | compClause (target : Node) (iter : Node) (ifs : List Node)

/-- Children of a node, in the order `ast.iter_child_nodes` yields them. -/
def childrenOf : Node → List Node
  | .module body => body
  | .classDef _ _ bases body => bases ++ body
  | .functionDef _ _ _ body => body
  | .asyncFunctionDef _ _ _ body => body
  | .assign _ targets value => targets ++ [value]
  | .annAssign _ target value => [target, value]
  | .exprStmt _ value => [value]
  | .ifS _ test body orelse => test :: (body ++ orelse)
  | .forS _ target iter body orelse => target :: iter :: (body ++ orelse)
  | .asyncForS _ target iter body orelse => target :: iter :: (body ++ orelse)
  | .whileS _ test body orelse => test :: (body ++ orelse)
  | .withS _ items body => items ++ body
  | .asyncWithS _ items body => items ++ body
  | .tryS _ body handlers orelse finalbody => body ++ handlers ++ orelse ++ finalbody
  | .exceptHandler _ body => body
  | .raiseS _ => []
  | .assertS _ test => [test]
  | .passS _ => []
  | .returnS _ value => [value]
  | .boolOp _ values => values
  | .ifExp _ test body orelse => [test, body, orelse]
  | .callE _ func args => func :: args
  | .attributeE _ value _ => [value]
  | .nameE _ _ => []
  | .constE _ => []
  | .listComp _ elt generators => elt :: generators
  | .compClause target iter ifs => target :: iter :: ifs

mutual

/-- Size of a node: one plus the sizes of all children.  Used as traversal
fuel for the breadth-first walk. -/
def nsize : Node → Nat
  | .module body => 1 + nsizeL body
  | .classDef _ _ bases body => 1 + nsizeL bases + nsizeL body
  | .functionDef _ _ _ body => 1 + nsizeL body
  | .asyncFunctionDef _ _ _ body => 1 + nsizeL body
  | .assign _ targets value => 1 + nsizeL targets + nsize value
  | .annAssign _ target value => 1 + nsize target + nsize value
  | .exprStmt _ value => 1 + nsize value
  | .ifS _ test body orelse => 1 + nsize test + nsizeL body + nsizeL orelse
  | .forS _ target iter body orelse => 1 + nsize target + nsize iter + nsizeL body + nsizeL orelse
  | .asyncForS _ target iter body orelse => 1 + nsize target + nsize iter + nsizeL body + nsizeL orelse
  | .whileS _ test body orelse => 1 + nsize test + nsizeL body + nsizeL orelse
  | .withS _ items body => 1 + nsizeL items + nsizeL body
  | .asyncWithS _ items body => 1 + nsizeL items + nsizeL body
  | .tryS _ body handlers orelse finalbody => 1 + nsizeL body + nsizeL handlers + nsizeL orelse + nsizeL finalbody
  | .exceptHandler _ body => 1 + nsizeL body
  | .raiseS _ => 1
  | .assertS _ test => 1 + nsize test
  | .passS _ => 1
  | .returnS _ value => 1 + nsize value
  | .boolOp _ values => 1 + nsizeL values
  | .ifExp _ test body orelse => 1 + nsize test + nsize body + nsize orelse
  | .callE _ func args => 1 + nsize func + nsizeL args
  | .attributeE _ value _ => 1 + nsize value
  | .nameE _ _ => 1
  | .constE _ => 1
  | .listComp _ elt generators => 1 + nsize elt + nsizeL generators
  | .compClause target iter ifs => 1 + nsize target + nsize iter + nsizeL ifs

/-- Sum of sizes of a list of nodes. -/
def nsizeL : List Node → Nat
  | [] => 0
  | n :: ns => nsize n + nsizeL ns

end

theorem nsizeL_append (a b : List Node) : nsizeL (a ++ b) = nsizeL a + nsizeL b := by
  induction a with
  | nil => simp [nsizeL]
  | cons n ns ih => simp [nsizeL, ih]; omega

theorem childrenOf_nsize (n : Node) : nsizeL (childrenOf n) < nsize n := by
  cases n <;> simp [childrenOf, nsize, nsizeL, nsizeL_append] <;> omega

theorem nsize_pos (n : Node) : 0 < nsize n := by
  cases n <;> simp only [nsize] <;> omega

/-- Breadth-first traversal worker with explicit fuel.  With fuel at least
the total size of the queue it performs exactly the loop of `ast.walk`:
pop the head, yield it, enqueue its children at the back. -/
def walkF : Nat → List Node → List Node
  | _, [] => []
  | 0, _ :: _ => []
  | fuel + 1, n :: rest => n :: walkF fuel (rest ++ childrenOf n)

/-- Breadth-first walk of a queue of nodes, as performed by `ast.walk`.
`nsizeL q` steps always suffice, see `walkL_cons`. -/
def walkL (q : List Node) : List Node := walkF (nsizeL q) q

theorem walkF_congr : ∀ (f1 : Nat), ∀ (f2 : Nat) (q : List Node),
    nsizeL q ≤ f1 → nsizeL q ≤ f2 → walkF f1 q = walkF f2 q := by
  intro f1
  induction f1 using Nat.strong_induction_on with
  | _ f1 ih =>
    intro f2 q h1 h2
    match q with
    | [] => cases f1 <;> cases f2 <;> simp [walkF]
    | n :: rest =>
      have hpos : 0 < nsizeL (n :: rest) := by
        have := nsize_pos n
        simp [nsizeL]; omega
      obtain ⟨g1, rfl⟩ : ∃ g, f1 = g + 1 := ⟨f1 - 1, by omega⟩
      obtain ⟨g2, rfl⟩ : ∃ g, f2 = g + 1 := ⟨f2 - 1, by omega⟩
      have hch := childrenOf_nsize n
      have hq : nsizeL (n :: rest) = nsize n + nsizeL rest := by simp [nsizeL]
      have hrest : nsizeL (rest ++ childrenOf n) ≤ g1 := by
        rw [nsizeL_append]; omega
      have hrest2 : nsizeL (rest ++ childrenOf n) ≤ g2 := by
        rw [nsizeL_append]; omega
      simp only [walkF]
      rw [ih g1 (by omega) g2 (rest ++ childrenOf n) hrest hrest2]

/-- The walk satisfies the defining recurrence of `ast.walk`:
the head node is yielded, its children are appended to the queue. -/
theorem walkL_cons (n : Node) (rest : List Node) :
    walkL (n :: rest) = n :: walkL (rest ++ childrenOf n) := by
  have hpos := nsize_pos n
  have hch := childrenOf_nsize n
  unfold walkL
  have h1 : nsizeL (n :: rest) = (nsize n - 1 + nsizeL rest) + 1 := by
    simp [nsizeL]; omega
  rw [h1]
  simp only [walkF]
  congr 1
  exact walkF_congr _ _ _ (by simp [nsizeL_append]; omega) (le_refl _)

theorem walkL_nil : walkL [] = [] := rfl

/-- Walk of a single tree, as `ast.walk(tree)`. -/
def walk (n : Node) : List Node := walkL [n]

/-- Concatenated walks of a list of parsed files, matching the ubiquitous
pattern `for tree in parsed_py_files: for node in ast.walk(tree)`. -/
def walkAll (parsed : List Node) : List Node := parsed.flatMap walk

/-- Assignment into a Python dict: replace the value in place if the key is
present (keeping its position), otherwise append the binding. -/
def dictSet {α : Type} (d : List (String × α)) (k : String) (v : α) : List (String × α) :=
  if d.any (fun p => p.1 == k) then d.map (fun p => if p.1 == k then (k, v) else p)
  else d ++ [(k, v)]

/-- Lookup in a Python dict embedded as an association list. -/
def dictGet {α : Type} (d : List (String × α)) (k : String) : Option α :=
  (d.find? (fun p => p.1 == k)).map (·.2)

/-- Keys of an embedded dict, in order. -/
def dictKeys {α : Type} (d : List (String × α)) : List String := d.map (·.1)

/-- Python `str.strip()`: drop leading and trailing whitespace.  Written on
the character list so that it evaluates inside the kernel. -/
def pyStrip (s : String) : String :=
  ⟨(((s.data.dropWhile Char.isWhitespace).reverse).dropWhile Char.isWhitespace).reverse⟩

/-- Truthiness of a stripped line: Python keeps a line when `line.strip()`
is non-empty. -/
def notBlank (line : String) : Bool := !(pyStrip line).data.isEmpty

/-- Loop body of calculate_duplication_percentage for one stripped line:
`code_lines_count[line] += 1`, and `duplicated_lines += 1` when the new
count exceeds 1.  The state is (counts, total_lines, duplicated_lines). -/
def dupLineStep (acc : (String → Nat) × Nat × Nat) (line : String) : (String → Nat) × Nat × Nat :=
  let counts := fun s => if s = line then acc.1 s + 1 else acc.1 s
  (counts, acc.2.1, if counts line > 1 then acc.2.2 + 1 else acc.2.2)

/-- Loop body of calculate_duplication_percentage for one file: strip and
filter the lines, add their number to total_lines, then feed each one to
the shared counting dict. -/
def dupFileStep (acc : (String → Nat) × Nat × Nat) (lines : List String) : (String → Nat) × Nat × Nat :=
  let ls := (lines.filter notBlank).map pyStrip
  ls.foldl dupLineStep (acc.1, acc.2.1 + ls.length, acc.2.2)

/-- ReadabilityAndFormattingMetrics.calculate_duplication_percentage.
Files are given as lists of raw lines.  A shared `defaultdict(int)` counts
occurrences of each stripped non-blank line across all files; every
occurrence after the first increments `duplicated_lines`.  The source
returns `(duplicated_lines / total_lines) * 100 * 2` (note the final
doubling), and `0.0` when there are no non-blank lines. -/
def calculate_duplication_percentage (py_files : List (List String)) : ℚ :=
  let final := py_files.foldl dupFileStep (fun _ => 0, 0, 0)
  if final.2.1 = 0 then 0 else ((final.2.2 : ℚ) / (final.2.1 : ℚ)) * 100 * 2

/-- ReadabilityAndFormattingMetrics.calculate_maximum_line_length.
Starts at -1 and takes the maximum raw length over every line of every
file (lengths come from `readlines`, so a line includes its newline). -/
def calculate_maximum_line_length (py_files : List (List String)) : Int :=
  py_files.foldl
    (fun m lines => lines.foldl (fun m line => max m (line.length : Int)) m)
    (-1)

/-- ReadabilityAndFormattingMetrics.calculate_average_line_length.
The numerator sums the raw lengths of the lines whose stripped form is
non-empty; the denominator counts ALL lines of every file, blank included.
Returns 0.0 when there are no lines at all. -/
def calculate_average_line_length (py_files : List (List String)) : ℚ :=
  let final := py_files.foldl
    (fun acc lines =>
      (acc.1 + ((lines.filter notBlank).map String.length).sum, acc.2 + lines.length))
    ((0 : Nat), (0 : Nat))
  if final.2 = 0 then 0 else (final.1 : ℚ) / (final.2 : ℚ)

/-- Helper of calculate_depth_of_inheritance_tree: resolve a base expression
to a name.  `ast.Name` gives its identifier, `ast.Attribute` its final
attribute, `ast.Call` recurses on the callee, anything else yields
"UnknownBase". -/
def get_base_name : Node → String
  | .nameE _ id => id
  | .attributeE _ _ attr => attr
  | .callE _ func _ => get_base_name func
  | _ => "UnknownBase"

/-- Name and base expressions of a class-declaration node, if it is one. -/
def classInfo? : Node → Option (String × List Node)
  | .classDef _ name bases _ => some (name, bases)
  | _ => none

/-- ClassMetrics.calculate_depth_of_inheritance_tree.  The source collects
every class name, builds `edges[name] = [resolved bases that are declared
class names]` in walk order, and then runs `pseudo_dfs` over the keys in
insertion order.  Inside `pseudo_dfs` the recursive call is guarded by
`if child not in visited`, and `visited` is pre-populated with EVERY class
as a key (mapped to False), so the guard is never true and the recursion is
dead: each class's depth is simply one plus the maximum recorded depth of
its children at the moment the class itself is processed (0 for a child not
yet processed).  The embedding spells out that effective single pass. -/
def calculate_depth_of_inheritance_tree (parsed : List Node) : Nat :=
  let class_names : List String := ((walkAll parsed).filterMap classInfo?).map (·.1)
  let edges : List (String × List String) :=
    ((walkAll parsed).filterMap classInfo?).foldl
      (fun d info =>
        dictSet d info.1 ((info.2.map get_base_name).filter (fun b => class_names.contains b)))
      []
  let inheritance_depth : List (String × Nat) :=
    edges.foldl
      (fun d e =>
        dictSet d e.1 ((e.2.foldl (fun m c => max m ((dictGet d c).getD 0)) 0) + 1))
      []
  (inheritance_depth.map (·.2)).foldl max 0

mutual

/-- CyclomaticComplexityVisitor: the accumulator threads `self.complexity`
through the visit.  Each `visit_X` method adds its increment and then runs
`generic_visit`, which visits the children in field order; node kinds
without a `visit_X` method only run `generic_visit`. -/
def ccVisit (acc : Nat) : Node → Nat
  | .module body => ccVisitL acc body
  | .classDef _ _ bases body => ccVisitL (ccVisitL acc bases) body
  | .functionDef _ _ _ body => ccVisitL acc body
  | .asyncFunctionDef _ _ _ body => ccVisitL acc body
  | .assign _ targets value => ccVisit (ccVisitL acc targets) value
  | .annAssign _ target value => ccVisit (ccVisit acc target) value
  | .exprStmt _ value => ccVisit acc value
  | .ifS _ test body orelse => ccVisitL (ccVisitL (ccVisit (acc + 1) test) body) orelse
  | .forS _ target iter body orelse =>
      ccVisitL (ccVisitL (ccVisit (ccVisit (acc + 1) target) iter) body) orelse
  | .asyncForS _ target iter body orelse =>
      ccVisitL (ccVisitL (ccVisit (ccVisit (acc + 1) target) iter) body) orelse
  | .whileS _ test body orelse => ccVisitL (ccVisitL (ccVisit (acc + 1) test) body) orelse
  | .withS _ items body => ccVisitL (ccVisitL (acc + 1) items) body
  | .asyncWithS _ items body => ccVisitL (ccVisitL (acc + 1) items) body
  | .tryS _ body handlers orelse finalbody =>
      ccVisitL (ccVisitL (ccVisitL (ccVisitL acc body) handlers) orelse) finalbody
  | .exceptHandler _ body => ccVisitL (acc + 1) body
  | .raiseS _ => acc + 1
  | .assertS _ test => ccVisit (acc + 1) test
  | .passS _ => acc
  | .returnS _ value => ccVisit acc value
  | .boolOp _ values => ccVisitL (acc + (values.length - 1)) values
  | .ifExp _ test body orelse => ccVisit (ccVisit (ccVisit (acc + 1) test) body) orelse
  | .callE _ func args => ccVisitL (ccVisit acc func) args
  | .attributeE _ value _ => ccVisit acc value
  | .nameE _ _ => acc
  | .constE _ => acc
  | .listComp _ elt generators => ccVisitL (ccVisit acc elt) generators
  | .compClause target iter ifs => ccVisitL (ccVisit (ccVisit (acc + ifs.length) target) iter) ifs

/-- generic_visit over a list of children. -/
def ccVisitL (acc : Nat) : List Node → Nat
  | [] => acc
  | n :: ns => ccVisitL (ccVisit acc n) ns

end

/-- Cyclomatic complexity of one function node: the visitor starts its
complexity at 1 and visits the function node. -/
def cyclomatic (f : Node) : Nat := ccVisit 1 f

/-- Modelled from the spec: the increment the visitor is specified to add
for one construct — 1 for a conditional branch, loop (async included),
with-statement, exception handler, conditional expression, raise and
assert; the number of filter clauses for a comprehension; one less than the
number of operands for a boolean expression; 0 for everything else. -/
def ccWeight : Node → Nat
  | .ifS _ _ _ _ => 1
  | .forS _ _ _ _ _ => 1
  | .asyncForS _ _ _ _ _ => 1
  | .whileS _ _ _ _ => 1
  | .withS _ _ _ => 1
  | .asyncWithS _ _ _ => 1
  | .exceptHandler _ _ => 1
  | .raiseS _ => 1
  | .assertS _ _ => 1
  | .boolOp _ values => values.length - 1
  | .ifExp _ _ _ _ => 1
  | .compClause _ _ ifs => ifs.length
  | _ => 0

mutual

/-- Modelled from the spec: total of the per-construct increments over a
whole subtree. -/
def ccTotal : Node → Nat
  | .module body => ccTotalL body
  | .classDef _ _ bases body => ccTotalL bases + ccTotalL body
  | .functionDef _ _ _ body => ccTotalL body
  | .asyncFunctionDef _ _ _ body => ccTotalL body
  | .assign _ targets value => ccTotalL targets + ccTotal value
  | .annAssign _ target value => ccTotal target + ccTotal value
  | .exprStmt _ value => ccTotal value
  | .ifS _ test body orelse => 1 + ccTotal test + ccTotalL body + ccTotalL orelse
  | .forS _ target iter body orelse =>
      1 + ccTotal target + ccTotal iter + ccTotalL body + ccTotalL orelse
  | .asyncForS _ target iter body orelse =>
      1 + ccTotal target + ccTotal iter + ccTotalL body + ccTotalL orelse
  | .whileS _ test body orelse => 1 + ccTotal test + ccTotalL body + ccTotalL orelse
  | .withS _ items body => 1 + ccTotalL items + ccTotalL body
  | .asyncWithS _ items body => 1 + ccTotalL items + ccTotalL body
  | .tryS _ body handlers orelse finalbody =>
      ccTotalL body + ccTotalL handlers + ccTotalL orelse + ccTotalL finalbody
  | .exceptHandler _ body => 1 + ccTotalL body
  | .raiseS _ => 1
  | .assertS _ test => 1 + ccTotal test
  | .passS _ => 0
  | .returnS _ value => ccTotal value
  | .boolOp _ values => (values.length - 1) + ccTotalL values
  | .ifExp _ test body orelse => 1 + ccTotal test + ccTotal body + ccTotal orelse
  | .callE _ func args => ccTotal func + ccTotalL args
  | .attributeE _ value _ => ccTotal value
  | .nameE _ _ => 0
  | .constE _ => 0
  | .listComp _ elt generators => ccTotal elt + ccTotalL generators
  | .compClause target iter ifs => ifs.length + ccTotal target + ccTotal iter + ccTotalL ifs

/-- Modelled from the spec: total increments over a list of subtrees. -/
def ccTotalL : List Node → Nat
  | [] => 0
  | n :: ns => ccTotal n + ccTotalL ns

end

/-- Python set of strings, embedded as a duplicate-free list: adding an
element appends it unless already present.  Length, membership, union and
disjointness of such lists agree with the Python set operations. -/
def setInsert (s : List String) (x : String) : List String :=
  if x ∈ s then s else s ++ [x]

/-- Python set union `a.union(b)` (also `a |= b` by repeated `add`). -/
def setUnionList (a b : List String) : List String := b.foldl setInsert a

/-- Python `a.isdisjoint(b)`. -/
def listDisjoint (a b : List String) : Bool := a.all (fun x => !b.contains x)

/-- Python `name.startswith("_")`. -/
def underscored (s : String) : Bool :=
  match s.data with
  | c :: _ => c = '_'
  | [] => false

/-- Attribute names a method touches through its `self` parameter:
`_AttributeVisitor` adds `node.attr` for every `ast.Attribute` whose value
is the name `self`, anywhere in the method body (its `visit_Assign` only
re-adds attributes `visit_Attribute` already collects). -/
def methodAttrs (m : Node) : List String :=
  (walk m).foldl
    (fun s n =>
      match n with
      | .attributeE _ (.nameE _ v) attr => if v = "self" then setInsert s attr else s
      | _ => s)
    []

/-- Helper `run_methods_lcom` of CodeComplexityAndQualityMetrics.calculate_lcom:
the double index loop `for i in range(len_m): for j in range(i+1, len(methods))`
classifies every unordered pair of methods as disjoint (`p`) or related (`q`)
by their attribute sets, and returns `p - q if p > q else 0`; with fewer than
two methods it returns 0. -/
def run_methods_lcom (methods : List (List String)) : Nat :=
  if 1 < methods.length then
    let pq := (List.range methods.length).foldl
      (fun pq i =>
        (List.range' (i + 1) (methods.length - (i + 1))).foldl
          (fun pq j =>
            if listDisjoint (methods.getD i []) (methods.getD j []) then (pq.1 + 1, pq.2)
            else (pq.1, pq.2 + 1))
          pq)
      ((0 : Nat), (0 : Nat))
    if pq.2 < pq.1 then pq.1 - pq.2 else 0
  else 0

/-- Per-class result record of calculate_lcom. -/
structure LcomEntry where
  lcom : Nat
  methodsCount : Nat
  attributes : List String
  deriving Repr, DecidableEq

/-- CodeComplexityAndQualityMetrics.calculate_lcom: for every class found in
the walk of every parsed file, collect the directly declared methods (the
`ast.FunctionDef` entries of the class body), their self-attribute sets,
run `run_methods_lcom`, and record the method count and the union of all
referenced attribute names. -/
def lcomClassStep (acc : List (String × LcomEntry)) (n : Node) : List (String × LcomEntry) :=
  match n with
  | .classDef _ class_name _ body =>
      let methods := body.filterMap
        (fun child =>
          match child with
          | .functionDef _ method_name _ _ => some (method_name, methodAttrs child)
          | _ => none)
      let lcom := run_methods_lcom (methods.map (·.2))
      let all_attributes := methods.foldl (fun s m => setUnionList s m.2) []
      dictSet acc class_name ⟨lcom, methods.length, all_attributes⟩
  | _ => acc

def calculate_lcom (parsed : List Node) : List (String × LcomEntry) :=
  parsed.foldl (fun acc tree => (walk tree).foldl lcomClassStep acc) []

/-- Fixed primitive-type set of CBOMetric.count_coupling_between_objects. -/
def builtinsCBO : List String := ["int", "str", "list", "dict", "bool", "float"]

/-- Resolution of an attribute chain to its dotted name, as done by both
`add_bases_names` and `add_call_names_for_attr`: peel `ast.Attribute`
layers, require the innermost value to be an `ast.Name`, and join the
parts root-first with dots.  Any other shape resolves to nothing. -/
def dottedName? : Node → Option String
  | .nameE _ id => some id
  | .attributeE _ value attr => (dottedName? value).map (fun pre => pre ++ "." ++ attr)
  | _ => none

/-- Helper `add_bases_names`: the resolved dotted names of a class's bases,
excluding the primitive set. -/
def add_bases_names (bases : List Node) : List String :=
  bases.foldl
    (fun s b =>
      match dottedName? b with
      | some full => if full ∈ builtinsCBO then s else setInsert s full
      | none => s)
    []

/-- Helper `add_call_names`: a plain-name callee is added whenever it is not
primitive; an attribute-chain callee is added only when its resolved dotted
name is one of the classes declared in the same module and not primitive. -/
def addCallName (module_classes : List String) (s : List String) : Node → List String
  | .nameE _ id => if id ∈ builtinsCBO then s else setInsert s id
  | .attributeE ln value attr =>
      match dottedName? (.attributeE ln value attr) with
      | some full =>
          if full ∈ module_classes ∧ full ∉ builtinsCBO then setInsert s full else s
      | none => s
  | _ => s

/-- CBOMetric.count_coupling_between_objects: per module, per class found in
the module walk, CBO is the size of the union of the resolved base names
and the callee names collected from every `ast.Call` in the class body. -/
def cboModuleClasses (module : Node) : List String :=
  (walk module).foldl
    (fun s n =>
      match n with
      | .classDef _ nm _ _ => setInsert s nm
      | _ => s)
    []

def cboClassStep (module_classes : List String) (result : List (String × Nat)) (n : Node) :
    List (String × Nat) :=
  match n with
  | .classDef _ class_name bases body =>
      let bases_names := add_bases_names bases
      let call_names := body.foldl
        (fun cs stmt =>
          (walk stmt).foldl
            (fun cs sub =>
              match sub with
              | .callE _ func _ => addCallName module_classes cs func
              | _ => cs)
            cs)
        []
      dictSet result class_name (setUnionList bases_names call_names).length
  | _ => result

def count_coupling_between_objects (parsed : List Node) : List (String × Nat) :=
  parsed.foldl
    (fun result module => (walk module).foldl (cboClassStep (cboModuleClasses module)) result)
    []

/-- ClassMetrics.calculate_method_hiding_factor: over every class body in
every walked tree, count the directly declared `ast.FunctionDef` entries
and those whose name starts with an underscore; return the ratio, or 0
when there are no methods. -/
def mhfClassStep (acc : Nat × Nat) (n : Node) : Nat × Nat :=
  match n with
  | .classDef _ _ _ body =>
      body.foldl
        (fun acc sub =>
          match sub with
          | .functionDef _ name _ _ =>
              (acc.1 + (if underscored name then 1 else 0), acc.2 + 1)
          | _ => acc)
        acc
  | _ => acc

def calculate_method_hiding_factor (parsed : List Node) : ℚ :=
  let counts := parsed.foldl
    (fun acc tree => (walk tree).foldl mhfClassStep acc) ((0 : Nat), (0 : Nat))
  if counts.2 = 0 then 0 else (counts.1 : ℚ) / (counts.2 : ℚ)

/-- ClassMetrics.calculate_attribute_hiding_factor: over every class body,
an `ast.Assign` counts once toward the total and once toward the private
count for every `ast.Name` target starting with an underscore; an
`ast.AnnAssign` counts once toward the total and toward the private count
when its target is an underscored name.  Ratio, or 0.0 with no attributes. -/
def ahfClassStep (acc : Nat × Nat) (n : Node) : Nat × Nat :=
  match n with
  | .classDef _ _ _ body =>
      body.foldl
        (fun acc sub =>
          match sub with
          | .assign _ targets _ =>
              (targets.foldl
                (fun p t =>
                  match t with
                  | .nameE _ id => if underscored id then p + 1 else p
                  | _ => p)
                acc.1,
               acc.2 + 1)
          | .annAssign _ target _ =>
              ((match target with
                | .nameE _ id => if underscored id then acc.1 + 1 else acc.1
                | _ => acc.1),
               acc.2 + 1)
          | _ => acc)
        acc
  | _ => acc

def calculate_attribute_hiding_factor (parsed : List Node) : ℚ :=
  let counts := parsed.foldl
    (fun acc tree => (walk tree).foldl ahfClassStep acc) ((0 : Nat), (0 : Nat))
  if counts.2 = 0 then 0 else (counts.1 : ℚ) / (counts.2 : ℚ)

/-- Base names as resolved by the inheritance/polymorphism factors:
`ast.Name` gives its id, `ast.Attribute` its final attribute, anything
else is skipped. -/
def simpleBaseNames (bases : List Node) : List String :=
  bases.filterMap
    (fun b =>
      match b with
      | .nameE _ id => some id
      | .attributeE _ _ attr => some attr
      | _ => none)

/-- ClassMetrics.calculate_method_inheritance_factor: per class, count every
`ast.FunctionDef` of every same-tree class whose name is among the class's
base names (`inherited_methods_num`, duplicates included), adding those
names to the set that starts as the class's own method names; the factor is
the count over the final set size, or 0.0 when the set is empty. -/
def mifClassStep (tree : Node) (res : List (String × ℚ)) (n : Node) : List (String × ℚ) :=
  match n with
  | .classDef _ name bases body =>
      let base_names := simpleBaseNames bases
      let own_methods := body.foldl
        (fun s child =>
          match child with
          | .functionDef _ mn _ _ => setInsert s mn
          | _ => s)
        []
      let final := (walk tree).foldl
        (fun (acc : Nat × List String) other =>
          match other with
          | .classDef _ other_name _ other_body =>
              if other_name ∈ base_names then
                other_body.foldl
                  (fun acc sub =>
                    match sub with
                    | .functionDef _ mn _ _ => (acc.1 + 1, setInsert acc.2 mn)
                    | _ => acc)
                  acc
              else acc
          | _ => acc)
        ((0 : Nat), own_methods)
      dictSet res name
        (if 0 < final.2.length then (final.1 : ℚ) / (final.2.length : ℚ) else 0)
  | _ => res

def calculate_method_inheritance_factor (parsed : List Node) : List (String × ℚ) :=
  parsed.foldl (fun res tree => (walk tree).foldl (mifClassStep tree) res) []

/-- ClassMetrics.calculate_method_polymorphism_factor: like the inheritance
factor, but the numerator counts the base-class methods whose name matches
one of the class's own declared method names. -/
def pfClassStep (tree : Node) (res : List (String × ℚ)) (n : Node) : List (String × ℚ) :=
  match n with
  | .classDef _ name bases body =>
      let base_names := simpleBaseNames bases
      let init_methods := body.filterMap
        (fun child =>
          match child with
          | .functionDef _ mn _ _ => some mn
          | _ => none)
      let own_methods := body.foldl
        (fun s child =>
          match child with
          | .functionDef _ mn _ _ => setInsert s mn
          | _ => s)
        []
      let final := (walk tree).foldl
        (fun (acc : Nat × List String) other =>
          match other with
          | .classDef _ other_name _ other_body =>
              if other_name ∈ base_names then
                other_body.foldl
                  (fun acc sub =>
                    match sub with
                    | .functionDef _ mn _ _ =>
                        ((if mn ∈ init_methods then acc.1 + 1 else acc.1),
                         setInsert acc.2 mn)
                    | _ => acc)
                  acc
              else acc
          | _ => acc)
        ((0 : Nat), own_methods)
      dictSet res name
        (if 0 < final.2.length then (final.1 : ℚ) / (final.2.length : ℚ) else 0)
  | _ => res

def calculate_method_polymorphism_factor (parsed : List Node) : List (String × ℚ) :=
  parsed.foldl (fun res tree => (walk tree).foldl (pfClassStep tree) res) []

/-- AverageBasedMetrics.count_average_number_of_lines_per_file: total raw
line count over number of files, 0 when the file list is empty (the guard
runs before any file is read). -/
def count_average_number_of_lines_per_file (py_files : List (List String)) : ℚ :=
  if py_files.length = 0 then 0
  else
    let total := py_files.foldl (fun t lines => t + lines.length) (0 : Nat)
    (total : ℚ) / (py_files.length : ℚ)

/-- Line number of a node, when the corresponding `ast` node has a `lineno`
attribute (`ast.Module` and `ast.comprehension` do not). -/
def linenoOf : Node → Option Nat
  | .module _ => none
  | .compClause _ _ _ => none
  | .classDef ln _ _ _ => some ln
  | .functionDef ln _ _ _ => some ln
  | .asyncFunctionDef ln _ _ _ => some ln
  | .assign ln _ _ => some ln
  | .annAssign ln _ _ => some ln
  | .exprStmt ln _ => some ln
  | .ifS ln _ _ _ => some ln
  | .forS ln _ _ _ _ => some ln
  | .asyncForS ln _ _ _ _ => some ln
  | .whileS ln _ _ _ => some ln
  | .withS ln _ _ => some ln
  | .asyncWithS ln _ _ => some ln
  | .tryS ln _ _ _ _ => some ln
  | .exceptHandler ln _ => some ln
  | .raiseS ln => some ln
  | .assertS ln _ => some ln
  | .passS ln => some ln
  | .returnS ln _ => some ln
  | .boolOp ln _ => some ln
  | .ifExp ln _ _ _ => some ln
  | .callE ln _ _ => some ln
  | .attributeE ln _ _ => some ln
  | .nameE ln _ => some ln
  | .constE ln => some ln
  | .listComp ln _ _ => some ln

/-- Last line of a function: `max(n.lineno for n in ast.walk(node) if
hasattr(n, "lineno"))`.  The generator is never empty because the function
node itself carries a line number. -/
def endLineMax (f : Node) : Nat := ((walk f).filterMap linenoOf).foldl max 0

/-- AverageBasedMetrics.count_average_number_of_lines_per_method: for every
`ast.FunctionDef` (async functions are not counted) with a non-empty body,
add `end_line - start_line`; the average is over the number of such
methods, 0 when there are none. -/
def avgLinesMethodStep (acc : Nat × Nat) (n : Node) : Nat × Nat :=
  match n with
  | .functionDef lineno _ _ body =>
      if body.isEmpty then acc
      else (acc.1 + (endLineMax n - lineno), acc.2 + 1)
  | _ => acc

def count_average_number_of_lines_per_method (parsed : List Node) : ℚ :=
  let acc := parsed.foldl
    (fun acc tree => (walk tree).foldl avgLinesMethodStep acc) ((0 : Nat), (0 : Nat))
  if 0 < acc.2 then (acc.1 : ℚ) / (acc.2 : ℚ) else 0

/-- AverageBasedMetrics.count_average_number_of_methods_per_class: directly
declared `ast.FunctionDef` count per walked class, averaged over classes,
0 when there are no classes. -/
def avgMethodsClassStep (acc : Nat × Nat) (n : Node) : Nat × Nat :=
  match n with
  | .classDef _ _ _ body =>
      (acc.1 + (body.filter
        (fun sub =>
          match sub with
          | .functionDef _ _ _ _ => true
          | _ => false)).length,
       acc.2 + 1)
  | _ => acc

def count_average_number_of_methods_per_class (parsed : List Node) : ℚ :=
  let acc := parsed.foldl
    (fun acc tree => (walk tree).foldl avgMethodsClassStep acc) ((0 : Nat), (0 : Nat))
  if 0 < acc.2 then (acc.1 : ℚ) / (acc.2 : ℚ) else 0

/-- AverageBasedMetrics.count_average_number_of_params_per_method_or_function:
`len(node.args.args)` summed over every walked `ast.FunctionDef`, averaged,
0 when there are none. -/
def avgParamsStep (acc : Nat × Nat) (n : Node) : Nat × Nat :=
  match n with
  | .functionDef _ _ args _ => (acc.1 + args.length, acc.2 + 1)
  | _ => acc

def count_average_number_of_params_per_method_or_function (parsed : List Node) : ℚ :=
  let acc := parsed.foldl
    (fun acc tree => (walk tree).foldl avgParamsStep acc) ((0 : Nat), (0 : Nat))
  if 0 < acc.2 then (acc.1 : ℚ) / (acc.2 : ℚ) else 0

/-- Metric keys set by CodeStructuresMetrics.value. -/
def codeStructureKeys : List String :=
  ["Number of Classes",
   "Number of Methods",
   "Number of Static Methods",
   "Maximum Number of Method Parameters",
   "Maximum Method Length",
   "Number of Decorators",
   "Number of Public Constants in File"]

/-- Metric keys set by DependencyAndCouplingMetrics.value. -/
def dependencyAndCouplingKeys : List String :=
  ["Number of Libraries",
   "Number of Extensions in the Project"]

/-- Metric key set by CBOMetric.value. -/
def cboKeys : List String := ["Coupling Between Objects"]

/-- Metric keys set by ProjectFileStructureMetrics.value. -/
def projectFileStructureKeys : List String :=
  ["Number of Files in the Project",
   "Depth of the Project File System Tree"]

/-- Metric keys set by AverageBasedMetrics.value. -/
def averageBasedKeys : List String :=
  ["Average Number of Lines per File",
   "Average Number of Lines per Method",
   "Average Number of Methods per Class",
   "Average Number of Parameters per Method/Function"]

/-- Metric keys set by MaintainabilityMetrics.value. -/
def maintainabilityKeys : List String :=
  ["Number of Functions or Methods Without Docstrings",
   "Number of Functions or Methods Without Typing",
   "Number of Context Managers",
   "Number of Handled Exceptions"]

/-- Metric keys set by ClassMetrics.value. -/
def classMetricsKeys : List String :=
  ["Method Hiding Factor",
   "Attribute Hiding Factor",
   "Method Inheritance Factor",
   "Polymorphism Factor",
   "Depth Of Inheritance Tree"]

/-- Metric keys set by ReadabilityAndFormattingMetrics.value. -/
def readabilityAndFormattingKeys : List String :=
  ["Duplication Percentage",
   "Maximum py Line Length",
   "Lines of Code",
   "Average Line Length",
   "Average Identifier Length",
   "Number of pass keywords"]

/-- Metric keys set by CodeComplexityAndQualityMetrics.value. -/
def codeComplexityAndQualityKeys : List String :=
  ["Cyclomatic Complexity",
   "Halstead Complexity",
   "LCOM",
   "Dead code: unused objects"]

/-- Key lists of the nine analyzers, in the order ExtPythonStats.report
merges their result dicts. -/
def analyzerKeyLists : List (List String) :=
  [codeStructureKeys,
   dependencyAndCouplingKeys,
   cboKeys,
   projectFileStructureKeys,
   averageBasedKeys,
   maintainabilityKeys,
   classMetricsKeys,
   readabilityAndFormattingKeys,
   codeComplexityAndQualityKeys]

/-- Aggregation step of ExtPythonStats.report: each analyzer's dict is
merged into the accumulated report with `{**acc, **partial}`, i.e. every
binding of the partial dict is assigned into the accumulator in order,
later analyzers overwriting earlier keys. -/
def insertAllPairs {α : Type} (acc d : List (String × α)) : List (String × α) :=
  d.foldl (fun acc kv => dictSet acc kv.1 kv.2) acc

def mergeReports {α : Type} (ds : List (List (String × α))) : List (String × α) :=
  ds.foldl insertAllPairs []

theorem foldl_flatten_eq {α β : Type} (f : α → β → α) :
    ∀ (L : List (List β)) (a : α), L.flatten.foldl f a = L.foldl (fun a l => l.foldl f a) a := by
  intro L
  induction L with
  | nil => intro a; rfl
  | cons l L ih => intro a; simp [List.foldl_append, ih]

theorem foldl_max_ge_init {β : Type} (g : β → Int) :
    ∀ (l : List β) (a : Int), a ≤ l.foldl (fun m x => max m (g x)) a := by
  intro l
  induction l with
  | nil => intro a; simp
  | cons x xs ih =>
    intro a
    calc a ≤ max a (g x) := le_max_left _ _
    _ ≤ xs.foldl (fun m x => max m (g x)) (max a (g x)) := ih _

theorem foldl_max_ge_mem {β : Type} (g : β → Int) :
    ∀ (l : List β) (a : Int) (x : β), x ∈ l → g x ≤ l.foldl (fun m x => max m (g x)) a := by
  intro l
  induction l with
  | nil => intro a x hx; cases hx
  | cons y ys ih =>
    intro a x hx
    rcases List.mem_cons.mp hx with h | h
    · subst h
      calc g x ≤ max a (g x) := le_max_right _ _
      _ ≤ ys.foldl (fun m x => max m (g x)) (max a (g x)) := foldl_max_ge_init g ys _
    · exact ih _ x h

theorem foldl_max_cases {β : Type} (g : β → Int) :
    ∀ (l : List β) (a : Int),
      l.foldl (fun m x => max m (g x)) a = a ∨ ∃ x ∈ l, l.foldl (fun m x => max m (g x)) a = g x := by
  intro l
  induction l with
  | nil => intro a; left; rfl
  | cons y ys ih =>
    intro a
    rcases ih (max a (g y)) with h | ⟨x, hx, h⟩
    · rcases max_cases a (g y) with ⟨hm, _⟩ | ⟨hm, _⟩
      · left; rw [List.foldl_cons, h, hm]
      · right
        exact ⟨y, List.mem_cons_self _ _, by rw [List.foldl_cons, h, hm]⟩
    · right
      exact ⟨x, List.mem_cons_of_mem _ hx, by rw [List.foldl_cons, h]⟩

/-- C10: on the empty file list the maximum-line-length metric returns -1
(unlike the 0 the other metrics return on empty input), and on any input it
returns the maximum raw line length over all lines of all files: an upper
bound on every line's length that is attained by some line whenever any
line exists. -/
theorem c10_maximum_line_length :
    calculate_maximum_line_length [] = -1
    ∧ (∀ (py_files : List (List String)) (file : List String) (line : String),
        file ∈ py_files → line ∈ file →
        (line.length : Int) ≤ calculate_maximum_line_length py_files)
    ∧ (∀ (py_files : List (List String)), py_files.flatten ≠ [] →
        ∃ file ∈ py_files, ∃ line ∈ file,
          calculate_maximum_line_length py_files = line.length) := by
  have hflat : ∀ (py_files : List (List String)),
      calculate_maximum_line_length py_files
        = py_files.flatten.foldl (fun m line => max m (line.length : Int)) (-1) := by
    intro py_files
    rw [calculate_maximum_line_length, foldl_flatten_eq]
  refine ⟨rfl, ?_, ?_⟩
  · intro py_files file line hf hl
    rw [hflat]
    exact foldl_max_ge_mem (fun line => (line.length : Int)) _ _ line
      (List.mem_flatten.mpr ⟨file, hf, hl⟩)
  · intro py_files hne
    rcases foldl_max_cases (fun line => (line.length : Int)) py_files.flatten (-1) with h | ⟨x, hx, h⟩
    · exfalso
      rcases List.exists_mem_of_ne_nil _ hne with ⟨line, hline⟩
      have hle := foldl_max_ge_mem (fun line => (line.length : Int)) py_files.flatten (-1) line hline
      rw [h] at hle
      have hle2 : (line.length : Int) ≤ -1 := hle
      omega
    · rcases List.mem_flatten.mp hx with ⟨file, hf, hl⟩
      exact ⟨file, hf, x, hl, by rw [hflat]; exact h⟩

/-- Witness for c10_maximum_line_length at a concrete input. -/
theorem c10_maximum_line_length_witness :
    (["ab"] ∈ [["ab"], ["c"]] ∧ "ab" ∈ ["ab"]
      ∧ (("ab".length : Int) ≤ calculate_maximum_line_length [["ab"], ["c"]]))
    ∧ ([["ab"], ["c"]] : List (List String)).flatten ≠ []
    ∧ ∃ file ∈ [["ab"], ["c"]], ∃ line ∈ file,
        calculate_maximum_line_length [["ab"], ["c"]] = line.length := by
  refine ⟨⟨by decide, by decide, ?_⟩, by decide, ?_⟩
  · exact c10_maximum_line_length.2.1 [["ab"], ["c"]] ["ab"] "ab" (by decide) (by decide)
  · exact c10_maximum_line_length.2.2 [["ab"], ["c"]] (by decide)

theorem avg_line_length_fold (py_files : List (List String)) :
    ∀ (s n : Nat),
      py_files.foldl
        (fun acc lines =>
          (acc.1 + ((lines.filter notBlank).map String.length).sum, acc.2 + lines.length))
        (s, n)
      = (s + ((py_files.flatten.filter notBlank).map String.length).sum,
         n + py_files.flatten.length) := by
  induction py_files with
  | nil => intro s n; simp
  | cons l L ih =>
    intro s n
    simp only [List.foldl_cons, ih, List.flatten_cons, List.filter_append, List.map_append,
      List.sum_append, List.length_append, Prod.mk.injEq]
    exact ⟨by omega, by omega⟩

/-- C6 counterexample: on the file ["x", " "] (one non-blank line of length
1, one blank line) the metric returns 1/2, not the 1 the claim's formula
(sum of non-blank lengths over number of non-blank lines) demands. -/
theorem c6_average_line_length_counterexample :
    calculate_average_line_length [["x", " "]] = 1 / 2
    ∧ ((1 : ℚ) / 2) ≠ 1 := by
  constructor
  · have h1 : "x".length = 1 := rfl
    simp +decide [calculate_average_line_length, h1]
  · norm_num

/-- C6 amended: the average-line-length metric sums the raw lengths of the
non-blank lines, but divides by the total number of lines of all files,
blank lines included (0 when there are no lines at all); blank lines are
excluded from the numerator only. -/
theorem c6_average_line_length_amended (py_files : List (List String)) :
    calculate_average_line_length py_files
      = if py_files.flatten.length = 0 then 0
        else (((py_files.flatten.filter notBlank).map String.length).sum : ℚ)
              / (py_files.flatten.length : ℚ) := by
  rw [calculate_average_line_length]
  rw [show ((0 : Nat), (0 : Nat)) = (((0 : Nat), (0 : Nat)) : Nat × Nat) from rfl]
  rw [avg_line_length_fold py_files 0 0]
  simp

/-- Stripped non-blank lines of one file, in order (the list comprehension
`[line.strip() for line in lines if line.strip()]`). -/
def strippedLines (lines : List String) : List String := (lines.filter notBlank).map pyStrip

/-- Stripped non-blank lines of all files, concatenated in processing order. -/
def stripAll (py_files : List (List String)) : List String :=
  (py_files.map strippedLines).flatten

/-- Modelled from the spec: the duplicate count — every occurrence of a
line that has already been seen counts, the first occurrence does not. -/
def dupSeen : List String → List String → Nat
  | _, [] => 0
  | seen, l :: rest => (if l ∈ seen then 1 else 0) + dupSeen (l :: seen) rest

theorem dupSeen_append : ∀ (a seen b : List String),
    dupSeen seen (a ++ b) = dupSeen seen a + dupSeen (a.reverse ++ seen) b := by
  intro a
  induction a with
  | nil => intro seen b; simp [dupSeen]
  | cons l a ih =>
    intro seen b
    show (if l ∈ seen then 1 else 0) + dupSeen (l :: seen) (a ++ b)
      = ((if l ∈ seen then 1 else 0) + dupSeen (l :: seen) a)
        + dupSeen ((l :: a).reverse ++ seen) b
    rw [ih (l :: seen) b]
    have hrw : (l :: a).reverse ++ seen = a.reverse ++ (l :: seen) := by
      rw [List.reverse_cons, List.append_assoc]; rfl
    rw [hrw]
    omega


theorem dup_inner_fold : ∀ (ls : List String) (counts : String → Nat) (seen : List String) (t d : Nat),
    (∀ s, counts s = seen.count s) →
    ∃ counts2,
      ls.foldl dupLineStep (counts, t, d) = (counts2, t, d + dupSeen seen ls)
      ∧ ∀ s, counts2 s = seen.count s + ls.count s := by
  intro ls
  induction ls with
  | nil =>
    intro counts seen t d hc
    exact ⟨counts, by simp [dupSeen], fun s => by simp [hc s]⟩
  | cons l rest ih =>
    intro counts seen t d hc
    rw [List.foldl_cons]
    have hstep : dupLineStep (counts, t, d) l
        = (fun s => if s = l then counts s + 1 else counts s, t,
           d + (if l ∈ seen then 1 else 0)) := by
      rw [dupLineStep]
      have hcl : (fun s => if s = l then counts s + 1 else counts s) l = counts l + 1 := by
        simp
      rw [hcl]
      by_cases hm : l ∈ seen
      · have h1 : 0 < seen.count l := List.count_pos_iff.mpr hm
        rw [if_pos (by rw [hc l]; omega), if_pos hm]
      · have h0 : seen.count l = 0 := by
          rcases Nat.eq_zero_or_pos (seen.count l) with h0 | hpos
          · exact h0
          · exact absurd (List.count_pos_iff.mp hpos) hm
        rw [if_neg (by rw [hc l, h0]; omega), if_neg hm]
        simp
    rw [hstep]
    have hc1 : ∀ s, (fun s => if s = l then counts s + 1 else counts s) s
        = (l :: seen).count s := by
      intro s
      by_cases hs : s = l
      · subst hs
        simp [hc s, List.count_cons]
      · simp [hs, hc s, List.count_cons, Ne.symm hs]
    rcases ih _ (l :: seen) t (d + (if l ∈ seen then 1 else 0)) hc1
      with ⟨counts2, heq, hcounts2⟩
    refine ⟨counts2, ?_, ?_⟩
    · rw [heq]
      show _ = (counts2, t, d + ((if l ∈ seen then 1 else 0) + dupSeen (l :: seen) rest))
      have : d + (if l ∈ seen then 1 else 0) + dupSeen (l :: seen) rest
          = d + ((if l ∈ seen then 1 else 0) + dupSeen (l :: seen) rest) := by omega
      rw [this]
    · intro s
      rw [hcounts2 s]
      by_cases hs : s = l
      · subst hs
        simp [List.count_cons]
        omega
      · simp [List.count_cons, hs, Ne.symm hs]

theorem dup_outer_fold : ∀ (py_files : List (List String)) (counts : String → Nat) (seen : List String) (t d : Nat),
    (∀ s, counts s = seen.count s) →
    ∃ counts2,
      py_files.foldl dupFileStep (counts, t, d)
      = (counts2, t + (stripAll py_files).length, d + dupSeen seen (stripAll py_files)) := by
  intro py_files
  induction py_files with
  | nil =>
    intro counts seen t d hc
    exact ⟨counts, by simp [stripAll, dupSeen]⟩
  | cons f fs ih =>
    intro counts seen t d hc
    rw [List.foldl_cons]
    have hfs : dupFileStep (counts, t, d) f
        = (strippedLines f).foldl dupLineStep (counts, t + (strippedLines f).length, d) := rfl
    rw [hfs]
    rcases dup_inner_fold (strippedLines f) counts seen (t + (strippedLines f).length) d hc
      with ⟨counts1, heq1, hcounts1⟩
    rw [heq1]
    have hc1 : ∀ s, counts1 s = ((strippedLines f).reverse ++ seen).count s := by
      intro s
      rw [hcounts1 s, List.count_append, List.count_reverse]
      omega
    rcases ih counts1 ((strippedLines f).reverse ++ seen)
      (t + (strippedLines f).length) (d + dupSeen seen (strippedLines f)) hc1
      with ⟨counts2, heq2⟩
    refine ⟨counts2, ?_⟩
    rw [heq2]
    have hsa : stripAll (f :: fs) = strippedLines f ++ stripAll fs := by
      simp [stripAll]
    rw [hsa, List.length_append, dupSeen_append]
    have h1 : t + (strippedLines f).length + (stripAll fs).length
        = t + ((strippedLines f).length + (stripAll fs).length) := by omega
    have h2 : d + dupSeen seen (strippedLines f)
          + dupSeen ((strippedLines f).reverse ++ seen) (stripAll fs)
        = d + (dupSeen seen (strippedLines f)
          + dupSeen ((strippedLines f).reverse ++ seen) (stripAll fs)) := by omega
    rw [h1, h2]

/-- C2 counterexample: a single file whose two lines are both "a" gives
total = 2 and duplicated = 1; the claim's formula yields 50, but the
metric returns 100 because the source multiplies the percentage by 2. -/
theorem c2_duplication_percentage_counterexample :
    calculate_duplication_percentage [["a", "a"]] = 100 ∧ (100 : ℚ) ≠ 50 := by
  constructor
  · simp +decide [calculate_duplication_percentage, dupFileStep, dupLineStep]
    norm_num
  · norm_num

/-- C2 amended: the duplication percentage is duplicated/total × 100 × 2 —
twice the value the claim states — where total is the number of stripped
non-blank lines across all files and duplicated counts every occurrence of
a line already seen (first occurrences not counted); it is 0.0 when there
are no non-blank lines. -/
theorem c2_duplication_percentage_amended (py_files : List (List String)) :
    calculate_duplication_percentage py_files
      = if (stripAll py_files).length = 0 then 0
        else ((dupSeen [] (stripAll py_files) : ℚ) / ((stripAll py_files).length : ℚ)) * 100 * 2 := by
  rw [calculate_duplication_percentage]
  rcases dup_outer_fold py_files (fun _ => 0) [] 0 0 (fun s => by simp)
    with ⟨counts2, heq⟩
  rw [heq]
  simp

/-- Four-level inheritance chain A <- B <- C <- D, declared base-first. -/
def ditChainBaseFirst : Node :=
  .module
    [.classDef 1 "A" [] [.passS 1],
     .classDef 2 "B" [.nameE 2 "A"] [.passS 2],
     .classDef 3 "C" [.nameE 3 "B"] [.passS 3],
     .classDef 4 "D" [.nameE 4 "C"] [.passS 4]]

/-- The same four-level chain declared derived-first (D first, A last). -/
def ditChainDerivedFirst : Node :=
  .module
    [.classDef 1 "D" [.nameE 1 "C"] [.passS 1],
     .classDef 2 "C" [.nameE 2 "B"] [.passS 2],
     .classDef 3 "B" [.nameE 3 "A"] [.passS 3],
     .classDef 4 "A" [] [.passS 4]]

/-- C1: the depth-of-inheritance metric is NOT the longest chain computed
by a memoized depth-first traversal — the recursion inside `pseudo_dfs` is
dead (`visited` is pre-populated with every class name as a key, so
`child not in visited` never holds), and the result depends on declaration
order.  On the four-level chain A <- B <- C <- D the metric returns 4 when
the classes are declared base-first but 1 when they are declared
derived-first, where the claim demands 4 regardless of order.  The
metric does return 0 with no classes and 1 for a single base-less class. -/
theorem c1_dit_order_dependent :
    calculate_depth_of_inheritance_tree [ditChainBaseFirst] = 4
    ∧ calculate_depth_of_inheritance_tree [ditChainDerivedFirst] = 1
    ∧ calculate_depth_of_inheritance_tree [] = 0
    ∧ calculate_depth_of_inheritance_tree [.module [.classDef 1 "A" [] [.passS 1]]] = 1 := by
  refine ⟨by decide, by decide, by decide, by decide⟩

mutual

theorem ccVisit_eq : ∀ (acc : Nat) (n : Node), ccVisit acc n = acc + ccTotal n
  | acc, .module body => by
      simp only [ccVisit, ccTotal]; rw [ccVisitL_eq]
  | acc, .classDef ln nm bases body => by
      simp only [ccVisit, ccTotal]; rw [ccVisitL_eq, ccVisitL_eq]; omega
  | acc, .functionDef ln nm args body => by
      simp only [ccVisit, ccTotal]; rw [ccVisitL_eq]
  | acc, .asyncFunctionDef ln nm args body => by
      simp only [ccVisit, ccTotal]; rw [ccVisitL_eq]
  | acc, .assign ln targets value => by
      simp only [ccVisit, ccTotal]; rw [ccVisit_eq, ccVisitL_eq]; omega
  | acc, .annAssign ln target value => by
      simp only [ccVisit, ccTotal]; rw [ccVisit_eq, ccVisit_eq]; omega
  | acc, .exprStmt ln value => by
      simp only [ccVisit, ccTotal]; rw [ccVisit_eq]
  | acc, .ifS ln test body orelse => by
      simp only [ccVisit, ccTotal]; rw [ccVisitL_eq, ccVisitL_eq, ccVisit_eq]; omega
  | acc, .forS ln target iter body orelse => by
      simp only [ccVisit, ccTotal]
      rw [ccVisitL_eq, ccVisitL_eq, ccVisit_eq, ccVisit_eq]; omega
  | acc, .asyncForS ln target iter body orelse => by
      simp only [ccVisit, ccTotal]
      rw [ccVisitL_eq, ccVisitL_eq, ccVisit_eq, ccVisit_eq]; omega
  | acc, .whileS ln test body orelse => by
      simp only [ccVisit, ccTotal]; rw [ccVisitL_eq, ccVisitL_eq, ccVisit_eq]; omega
  | acc, .withS ln items body => by
      simp only [ccVisit, ccTotal]; rw [ccVisitL_eq, ccVisitL_eq]; omega
  | acc, .asyncWithS ln items body => by
      simp only [ccVisit, ccTotal]; rw [ccVisitL_eq, ccVisitL_eq]; omega
  | acc, .tryS ln body handlers orelse finalbody => by
      simp only [ccVisit, ccTotal]
      rw [ccVisitL_eq, ccVisitL_eq, ccVisitL_eq, ccVisitL_eq]; omega
  | acc, .exceptHandler ln body => by
      simp only [ccVisit, ccTotal]; rw [ccVisitL_eq]; omega
  | acc, .raiseS ln => by
      simp only [ccVisit, ccTotal]
  | acc, .assertS ln test => by
      simp only [ccVisit, ccTotal]; rw [ccVisit_eq]; omega
  | acc, .passS ln => by
      simp only [ccVisit, ccTotal]; omega
  | acc, .returnS ln value => by
      simp only [ccVisit, ccTotal]; rw [ccVisit_eq]
  | acc, .boolOp ln values => by
      simp only [ccVisit, ccTotal]; rw [ccVisitL_eq]; omega
  | acc, .ifExp ln test body orelse => by
      simp only [ccVisit, ccTotal]; rw [ccVisit_eq, ccVisit_eq, ccVisit_eq]; omega
  | acc, .callE ln func args => by
      simp only [ccVisit, ccTotal]; rw [ccVisitL_eq, ccVisit_eq]; omega
  | acc, .attributeE ln value attr => by
      simp only [ccVisit, ccTotal]; rw [ccVisit_eq]
  | acc, .nameE ln id => by
      simp only [ccVisit, ccTotal]; omega
  | acc, .constE ln => by
      simp only [ccVisit, ccTotal]; omega
  | acc, .listComp ln elt generators => by
      simp only [ccVisit, ccTotal]; rw [ccVisitL_eq, ccVisit_eq]; omega
  | acc, .compClause target iter ifs => by
      simp only [ccVisit, ccTotal]; rw [ccVisitL_eq, ccVisit_eq, ccVisit_eq]; omega

theorem ccVisitL_eq : ∀ (acc : Nat) (l : List Node), ccVisitL acc l = acc + ccTotalL l
  | acc, [] => by simp only [ccVisitL, ccTotalL]; omega
  | acc, n :: ns => by
      simp only [ccVisitL, ccTotalL]; rw [ccVisitL_eq, ccVisit_eq]; omega

end

/-- Function with no branching construct: def f(x): return x -/
def ccExamplePlain : Node := .functionDef 1 "f" ["x"] [.returnS 2 (.nameE 2 "x")]

/-- The same function with one if added. -/
def ccExampleIf : Node :=
  .functionDef 1 "f" ["x"]
    [.ifS 2 (.nameE 2 "x") [.passS 3] [], .returnS 4 (.nameE 4 "x")]

/-- The same function returning a three-operand boolean expression. -/
def ccExampleBool3 : Node :=
  .functionDef 1 "f" ["x"]
    [.returnS 2 (.boolOp 2 [.nameE 2 "a", .nameE 2 "b", .nameE 2 "c"])]

/-- C3: the cyclomatic-complexity visitor starts at 1 and adds, over the
whole function subtree, exactly the per-construct increments `ccTotal`
sums up: 1 per conditional branch, loop (async included), with-statement,
exception handler, conditional expression, raise and assert; the number of
filter clauses per comprehension; one less than the operand count per
boolean expression.  In particular a function with no branching constructs
scores 1, adding one if adds exactly 1, and a three-operand boolean
expression adds exactly 2. -/
theorem c3_cyclomatic_visitor :
    (∀ f : Node, cyclomatic f = 1 + ccTotal f)
    ∧ cyclomatic ccExamplePlain = 1
    ∧ cyclomatic ccExampleIf = cyclomatic ccExamplePlain + 1
    ∧ cyclomatic ccExampleBool3 = cyclomatic ccExamplePlain + 2 := by
  refine ⟨?_, by decide, by decide, by decide⟩
  intro f
  rw [cyclomatic, ccVisit_eq]

/-- Modelled from the spec: over all unordered pairs of methods, the number
of pairs whose attribute sets are disjoint (p). -/
def pairsDisjointCount : List (List String) → Nat
  | [] => 0
  | x :: rest => (rest.filter (fun y => listDisjoint x y)).length + pairsDisjointCount rest

/-- Modelled from the spec: over all unordered pairs of methods, the number
of pairs whose attribute sets share something (q). -/
def pairsRelatedCount : List (List String) → Nat
  | [] => 0
  | x :: rest => (rest.filter (fun y => !listDisjoint x y)).length + pairsRelatedCount rest

theorem pq_fold_list (f : Nat → Bool) :
    ∀ (L : List Nat) (p q : Nat),
      L.foldl (fun pq j => if f j then (pq.1 + 1, pq.2) else (pq.1, pq.2 + 1)) (p, q)
      = (p + L.countP f, q + L.countP (fun j => !f j)) := by
  intro L
  induction L with
  | nil => intro p q; simp
  | cons j L ih =>
    intro p q
    rw [List.foldl_cons]
    by_cases hj : f j
    · rw [if_pos hj, ih, List.countP_cons, List.countP_cons]
      simp only [hj, Prod.mk.injEq]
      refine ⟨by simp; omega, by simp⟩
    · rw [if_neg (by simp [hj]), ih, List.countP_cons, List.countP_cons]
      simp only [hj, Prod.mk.injEq]
      refine ⟨by simp, by simp; omega⟩

theorem fold_add_pairs (g h : Nat → Nat) :
    ∀ (L : List Nat) (p q : Nat),
      L.foldl (fun pq i => (pq.1 + g i, pq.2 + h i)) (p, q)
      = (p + (L.map g).sum, q + (L.map h).sum) := by
  intro L
  induction L with
  | nil => intro p q; simp
  | cons i L ih =>
    intro p q
    rw [List.foldl_cons, ih]
    simp
    constructor <;> omega

theorem countP_range'_getD (f : List String → Bool) :
    ∀ (ys : List (List String)) (s : Nat) (big : List (List String)),
      (∀ k, big.getD (s + k) [] = ys.getD k []) →
      (List.range' s ys.length).countP (fun j => f (big.getD j [])) = (ys.filter f).length := by
  intro ys
  induction ys with
  | nil => intro s big _; simp
  | cons y ys ih =>
    intro s big hacc
    rw [List.length_cons, List.range'_succ s ys.length 1, List.countP_cons]
    have h0 : big.getD s [] = y := by
      have := hacc 0
      simpa using this
    have hshift : ∀ k, big.getD ((s + 1) + k) [] = ys.getD k [] := by
      intro k
      have := hacc (k + 1)
      rw [show s + (k + 1) = (s + 1) + k by omega] at this
      simpa using this
    rw [ih (s + 1) big hshift, h0, List.filter_cons]
    by_cases hy : f y
    · simp [hy]
    · simp [hy]

theorem countP_range'_shift (f : List String → Bool) (x : List String) (rest : List (List String)) :
    ∀ (c s : Nat),
      (List.range' (s + 1) c).countP (fun j => f ((x :: rest).getD j []))
      = (List.range' s c).countP (fun j => f (rest.getD j [])) := by
  intro c
  induction c with
  | zero => intro s; simp
  | succ c ih =>
    intro s
    rw [List.range'_succ (s + 1) c 1, List.range'_succ s c 1, List.countP_cons, List.countP_cons,
      ih (s + 1)]
    have : (x :: rest).getD (s + 1) [] = rest.getD s [] := List.getD_cons_succ
    rw [this]

/-- Modelled from the spec: enumeration of the unordered pairs of a method
list, counting those satisfying a predicate. -/
def pairsCountWith (D : List String → List String → Bool) : List (List String) → Nat
  | [] => 0
  | x :: rest => (rest.filter (fun y => D x y)).length + pairsCountWith D rest

theorem pairs_sum_eq (D : List String → List String → Bool) :
    ∀ (methods : List (List String)),
      ((List.range methods.length).map
        (fun i => (List.range' (i + 1) (methods.length - (i + 1))).countP
          (fun j => D (methods.getD i []) (methods.getD j [])))).sum
      = pairsCountWith D methods := by
  intro methods
  induction methods with
  | nil => simp [pairsCountWith]
  | cons x rest ih =>
    rw [List.length_cons, List.range_succ_eq_map, List.map_cons, List.sum_cons, List.map_map]
    have hhead :
        (List.range' (0 + 1) (rest.length + 1 - (0 + 1))).countP
          (fun j => D ((x :: rest).getD 0 []) ((x :: rest).getD j []))
        = (rest.filter (fun y => D x y)).length := by
      rw [List.getD_cons_zero]
      rw [show rest.length + 1 - (0 + 1) = rest.length by omega]
      exact countP_range'_getD (fun y => D x y) rest 1 (x :: rest)
        (fun k => by rw [show 1 + k = k + 1 by omega]; exact List.getD_cons_succ)
    have htail :
        (List.range rest.length).map
          ((fun i => (List.range' (i + 1) (rest.length + 1 - (i + 1))).countP
            (fun j => D ((x :: rest).getD i []) ((x :: rest).getD j []))) ∘ Nat.succ)
        = (List.range rest.length).map
          (fun i => (List.range' (i + 1) (rest.length - (i + 1))).countP
            (fun j => D (rest.getD i []) (rest.getD j []))) := by
      apply List.map_congr_left
      intro i _
      show (List.range' (i + 1 + 1) (rest.length + 1 - (i + 1 + 1))).countP
          (fun j => D ((x :: rest).getD (i + 1) []) ((x :: rest).getD j []))
        = (List.range' (i + 1) (rest.length - (i + 1))).countP
          (fun j => D (rest.getD i []) (rest.getD j []))
      rw [show (x :: rest).getD (i + 1) [] = rest.getD i [] from List.getD_cons_succ]
      rw [show rest.length + 1 - (i + 1 + 1) = rest.length - (i + 1) by omega]
      exact countP_range'_shift (fun y => D (rest.getD i []) y) x rest (rest.length - (i + 1)) (i + 1)
    rw [hhead, htail, ih]
    rfl

theorem run_methods_lcom_eq (methods : List (List String)) :
    (run_methods_lcom methods : ℤ)
      = max ((pairsCountWith (fun a b => listDisjoint a b) methods : ℤ)
             - (pairsCountWith (fun a b => !listDisjoint a b) methods : ℤ)) 0 := by
  rw [run_methods_lcom]
  by_cases hlen : 1 < methods.length
  · rw [if_pos hlen]
    have hinner :
        (List.range methods.length).foldl
          (fun pq i =>
            (List.range' (i + 1) (methods.length - (i + 1))).foldl
              (fun pq j =>
                if listDisjoint (methods.getD i []) (methods.getD j []) then (pq.1 + 1, pq.2)
                else (pq.1, pq.2 + 1))
              pq)
          ((0 : Nat), (0 : Nat))
        = (0 + ((List.range methods.length).map
              (fun i => (List.range' (i + 1) (methods.length - (i + 1))).countP
                (fun j => listDisjoint (methods.getD i []) (methods.getD j [])))).sum,
           0 + ((List.range methods.length).map
              (fun i => (List.range' (i + 1) (methods.length - (i + 1))).countP
                (fun j => !listDisjoint (methods.getD i []) (methods.getD j [])))).sum) :=
      (List.foldl_ext
        (fun pq i =>
          (List.range' (i + 1) (methods.length - (i + 1))).foldl
            (fun pq j =>
              if listDisjoint (methods.getD i []) (methods.getD j []) then (pq.1 + 1, pq.2)
              else (pq.1, pq.2 + 1))
            pq)
        (fun pq i =>
          (pq.1 + (List.range' (i + 1) (methods.length - (i + 1))).countP
            (fun j => listDisjoint (methods.getD i []) (methods.getD j [])),
           pq.2 + (List.range' (i + 1) (methods.length - (i + 1))).countP
            (fun j => !listDisjoint (methods.getD i []) (methods.getD j []))))
        ((0 : Nat), (0 : Nat))
        (fun b i _ =>
          pq_fold_list
            (fun j => listDisjoint (methods.getD i []) (methods.getD j []))
            (List.range' (i + 1) (methods.length - (i + 1))) b.1 b.2)).trans
      (fold_add_pairs _ _ (List.range methods.length) 0 0)
    rw [hinner, pairs_sum_eq (fun a b => listDisjoint a b) methods,
      pairs_sum_eq (fun a b => !listDisjoint a b) methods]
    set p := pairsCountWith (fun a b => listDisjoint a b) methods with hp
    set q := pairsCountWith (fun a b => !listDisjoint a b) methods with hq
    show ((if 0 + q < 0 + p then 0 + p - (0 + q) else 0 : Nat) : ℤ) = max ((p : ℤ) - (q : ℤ)) 0
    by_cases hpq : q < p
    · rw [if_pos (by omega)]
      omega
    · rw [if_neg (by omega)]
      push_cast [Int.ofNat_zero]
      omega
  · rw [if_neg hlen]
    have h0 : pairsCountWith (fun a b => listDisjoint a b) methods = 0
        ∧ pairsCountWith (fun a b => !listDisjoint a b) methods = 0 := by
      match methods with
      | [] => simp [pairsCountWith]
      | [x] => simp [pairsCountWith]
      | x :: y :: rest =>
        exfalso
        simp at hlen
    rw [h0.1, h0.2]
    simp

theorem pairsDisjointCount_eq (l : List (List String)) :
    pairsDisjointCount l = pairsCountWith (fun a b => listDisjoint a b) l := by
  induction l with
  | nil => rfl
  | cons x rest ih => simp [pairsDisjointCount, pairsCountWith, ih]

theorem pairsRelatedCount_eq (l : List (List String)) :
    pairsRelatedCount l = pairsCountWith (fun a b => !listDisjoint a b) l := by
  induction l with
  | nil => rfl
  | cons x rest ih => simp [pairsRelatedCount, pairsCountWith, ih]

/-- Class with two methods touching disjoint attribute sets (self.a, self.b). -/
def lcomExampleDisjoint : Node :=
  .module
    [.classDef 1 "C" []
      [.functionDef 2 "m1" ["self"]
        [.assign 3 [.attributeE 3 (.nameE 3 "self") "a"] (.constE 3)],
       .functionDef 4 "m2" ["self"]
        [.assign 5 [.attributeE 5 (.nameE 5 "self") "b"] (.constE 5)]]]

/-- Class with two methods touching the same attribute (both self.a). -/
def lcomExampleShared : Node :=
  .module
    [.classDef 1 "C" []
      [.functionDef 2 "m1" ["self"]
        [.assign 3 [.attributeE 3 (.nameE 3 "self") "a"] (.constE 3)],
       .functionDef 4 "m2" ["self"]
        [.assign 5 [.attributeE 5 (.nameE 5 "self") "a"] (.constE 5)]]]

/-- C4: per class, LCOM is max(p - q, 0) where over all unordered pairs of
the class's directly declared methods a pair counts toward p when their
self-attribute sets are disjoint and toward q otherwise; fewer than two
methods score 0; two methods with disjoint attribute sets give 1, two
methods sharing an attribute give 0. -/
theorem c4_lcom :
    (∀ methods : List (List String),
      (run_methods_lcom methods : ℤ)
        = max ((pairsDisjointCount methods : ℤ) - (pairsRelatedCount methods : ℤ)) 0)
    ∧ (∀ methods : List (List String), methods.length < 2 → run_methods_lcom methods = 0)
    ∧ (dictGet (calculate_lcom [lcomExampleDisjoint]) "C").map (fun e => e.lcom) = some 1
    ∧ (dictGet (calculate_lcom [lcomExampleShared]) "C").map (fun e => e.lcom) = some 0 := by
  refine ⟨?_, ?_, by decide, by decide⟩
  · intro methods
    rw [pairsDisjointCount_eq, pairsRelatedCount_eq]
    exact run_methods_lcom_eq methods
  · intro methods hlen
    rw [run_methods_lcom, if_neg (by omega)]

/-- Witness for c4_lcom at concrete inputs. -/
theorem c4_lcom_witness :
    ((run_methods_lcom [["a"], ["b"]] : ℤ)
      = max ((pairsDisjointCount [["a"], ["b"]] : ℤ) - (pairsRelatedCount [["a"], ["b"]] : ℤ)) 0)
    ∧ (([["a"]] : List (List String)).length < 2 ∧ run_methods_lcom [["a"]] = 0) := by
  refine ⟨c4_lcom.1 [["a"], ["b"]], by decide, c4_lcom.2.1 [["a"]] (by decide)⟩

theorem setInsert_mem {s : List String} {x y : String} :
    y ∈ setInsert s x → y ∈ s ∨ y = x := by
  rw [setInsert]
  split
  · exact fun h => Or.inl h
  · intro h
    rcases List.mem_append.mp h with h | h
    · exact Or.inl h
    · exact Or.inr (List.mem_singleton.mp h)

theorem foldl_preserve {α β : Type} (P : α → Prop) (step : α → β → α) (l : List β)
    (h : ∀ a b, P a → P (step a b)) : ∀ a, P a → P (l.foldl step a) := by
  induction l with
  | nil => intro a ha; exact ha
  | cons b l ih => intro a ha; exact ih _ (h a b ha)

theorem add_bases_names_sound (bases : List Node) :
    ∀ s, s ∈ add_bases_names bases → s ∉ builtinsCBO := by
  rw [add_bases_names]
  have := foldl_preserve (fun acc => ∀ s, s ∈ acc → s ∉ builtinsCBO)
    (fun s b =>
      match dottedName? b with
      | some full => if full ∈ builtinsCBO then s else setInsert s full
      | none => s)
    bases ?_ [] (by intro s h; cases h)
  · exact this
  · intro acc b hacc s hs
    revert hs
    cases hdot : dottedName? b with
    | none => simp only [hdot]; exact hacc s
    | some full =>
      simp only [hdot]
      split
      · exact hacc s
      · intro hs
        rcases setInsert_mem hs with h | h
        · exact hacc s h
        · subst h
          assumption

theorem addCallName_sound (mc acc : List String) (f : Node) :
    ∀ s, s ∈ addCallName mc acc f →
      s ∈ acc ∨ (s ∉ builtinsCBO ∧ ((∃ ln, f = .nameE ln s) ∨ s ∈ mc)) := by
  intro s
  cases f with
  | nameE ln id =>
    rw [addCallName]
    split
    · exact fun h => Or.inl h
    · intro h
      rcases setInsert_mem h with h | h
      · exact Or.inl h
      · subst h
        refine Or.inr ⟨by assumption, Or.inl ⟨ln, rfl⟩⟩
  | attributeE ln value attr =>
    rw [addCallName]
    cases hdot : dottedName? (.attributeE ln value attr) with
    | none => simp only [hdot]; exact fun h => Or.inl h
    | some full =>
      simp only [hdot]
      split
      · intro h
        rcases setInsert_mem h with h | h
        · exact Or.inl h
        · subst h
          rename_i hcond
          exact Or.inr ⟨hcond.2, Or.inr hcond.1⟩
      · exact fun h => Or.inl h
  | module body => exact fun h => Or.inl h
  | classDef ln nm bases body => exact fun h => Or.inl h
  | functionDef ln nm args body => exact fun h => Or.inl h
  | asyncFunctionDef ln nm args body => exact fun h => Or.inl h
  | assign ln targets value => exact fun h => Or.inl h
  | annAssign ln target value => exact fun h => Or.inl h
  | exprStmt ln value => exact fun h => Or.inl h
  | ifS ln test body orelse => exact fun h => Or.inl h
  | forS ln target iter body orelse => exact fun h => Or.inl h
  | asyncForS ln target iter body orelse => exact fun h => Or.inl h
  | whileS ln test body orelse => exact fun h => Or.inl h
  | withS ln items body => exact fun h => Or.inl h
  | asyncWithS ln items body => exact fun h => Or.inl h
  | tryS ln body handlers orelse finalbody => exact fun h => Or.inl h
  | exceptHandler ln body => exact fun h => Or.inl h
  | raiseS ln => exact fun h => Or.inl h
  | assertS ln test => exact fun h => Or.inl h
  | passS ln => exact fun h => Or.inl h
  | returnS ln value => exact fun h => Or.inl h
  | boolOp ln values => exact fun h => Or.inl h
  | ifExp ln test body orelse => exact fun h => Or.inl h
  | callE ln func args => exact fun h => Or.inl h
  | constE ln => exact fun h => Or.inl h
  | listComp ln elt generators => exact fun h => Or.inl h
  | compClause target iter ifs => exact fun h => Or.inl h

/-- Module with a single class having no bases and no calls. -/
def cboExampleLone : Node := .module [.classDef 1 "A" [] [.passS 1]]

/-- Module where class B inherits the locally declared A and its body makes
one plain call to the locally declared Helper. -/
def cboExampleTwo : Node :=
  .module
    [.classDef 1 "A" [] [.passS 1],
     .classDef 2 "Helper" [] [.passS 2],
     .classDef 3 "B" [.nameE 3 "A"]
      [.functionDef 4 "m" ["self"]
        [.exprStmt 5 (.callE 5 (.nameE 5 "Helper") [])]]]

/-- C5: CBO is the size of the union of the resolved base names and the
collected callee names, where the fixed primitive set is excluded from both
sides — no name in the base set is primitive, and every collected callee
name is either a non-primitive plain-call name or (for an attribute-chain
call) a name among the classes declared in the same tree.  A class with no
bases and no calls scores 0; a class whose only base is a locally declared
class and whose body makes one plain call to another locally declared class
scores 2. -/
theorem c5_cbo :
    (∀ (bases : List Node) (s : String), s ∈ add_bases_names bases → s ∉ builtinsCBO)
    ∧ (∀ (mc acc : List String) (f : Node) (s : String), s ∈ addCallName mc acc f →
        s ∈ acc ∨ (s ∉ builtinsCBO ∧ ((∃ ln, f = .nameE ln s) ∨ s ∈ mc)))
    ∧ dictGet (count_coupling_between_objects [cboExampleLone]) "A" = some 0
    ∧ dictGet (count_coupling_between_objects [cboExampleTwo]) "B" = some 2 := by
  exact ⟨fun bases s => add_bases_names_sound bases s,
    fun mc acc f s => addCallName_sound mc acc f s, by decide, by decide⟩

/-- Witness for c5_cbo at concrete inputs. -/
theorem c5_cbo_witness :
    ("A" ∈ add_bases_names [Node.nameE 3 "A"] ∧ "A" ∉ builtinsCBO)
    ∧ ("Helper" ∈ addCallName ["Helper"] [] (.nameE 5 "Helper")
        ∧ ("Helper" ∈ ([] : List String)
            ∨ ("Helper" ∉ builtinsCBO
                ∧ ((∃ ln, Node.nameE 5 "Helper" = .nameE ln "Helper") ∨ "Helper" ∈ ["Helper"])))) := by
  refine ⟨⟨by decide, c5_cbo.1 [Node.nameE 3 "A"] "A" (by decide)⟩,
    by decide, c5_cbo.2.1 ["Helper"] [] (.nameE 5 "Helper") "Helper" (by decide)⟩

/-- Recognizer for `ast.ClassDef` nodes. -/
def isClassNode : Node → Bool
  | .classDef _ _ _ _ => true
  | _ => false

/-- Recognizer for `ast.FunctionDef` nodes (async functions are a different
node kind and are not matched by the metrics below). -/
def isFunctionNode : Node → Bool
  | .functionDef _ _ _ _ => true
  | _ => false

theorem foldl_id_of {α β : Type} (step : α → β → α) (l : List β)
    (h : ∀ a b, b ∈ l → step a b = a) : ∀ a, l.foldl step a = a := by
  induction l with
  | nil => intro a; rfl
  | cons b l ih =>
    intro a
    rw [List.foldl_cons, h a b (List.mem_cons_self _ _)]
    exact ih (fun a x hx => h a x (List.mem_cons_of_mem _ hx)) a

theorem mem_walkAll_of_mem_walk {parsed : List Node} {tree n : Node}
    (ht : tree ∈ parsed) (hn : n ∈ walk tree) : n ∈ walkAll parsed :=
  List.mem_flatMap.mpr ⟨tree, ht, hn⟩

/-- C7: on input with zero class declarations every type-scoped metric
returns its empty value — CBO, the inheritance factor, the polymorphism
factor and LCOM return empty mappings, and the two hiding factors return 0
(the zero-denominator guard, no exception is modelled because every
embedded metric is a total function). -/
theorem c7_no_classes (parsed : List Node)
    (h : ∀ n ∈ walkAll parsed, isClassNode n = false) :
    count_coupling_between_objects parsed = []
    ∧ calculate_method_hiding_factor parsed = 0
    ∧ calculate_attribute_hiding_factor parsed = 0
    ∧ calculate_method_inheritance_factor parsed = []
    ∧ calculate_method_polymorphism_factor parsed = []
    ∧ calculate_lcom parsed = [] := by
  have hnc : ∀ (tree : Node), tree ∈ parsed → ∀ n ∈ walk tree, isClassNode n = false :=
    fun tree ht n hn => h n (mem_walkAll_of_mem_walk ht hn)
  refine ⟨?_, ?_, ?_, ?_, ?_, ?_⟩
  · rw [count_coupling_between_objects]
    apply foldl_id_of
    intro a module hmod
    apply foldl_id_of
    intro b n hn
    have := hnc module hmod n hn
    cases n <;> simp [cboClassStep]; simp [isClassNode] at this
  · rw [calculate_method_hiding_factor]
    have hz : parsed.foldl (fun acc tree => (walk tree).foldl mhfClassStep acc)
        ((0 : Nat), (0 : Nat)) = ((0 : Nat), (0 : Nat)) := by
      apply foldl_id_of
      intro a tree ht
      apply foldl_id_of
      intro b n hn
      have := hnc tree ht n hn
      cases n <;> simp [mhfClassStep]; simp [isClassNode] at this
    rw [hz]
    simp
  · rw [calculate_attribute_hiding_factor]
    have hz : parsed.foldl (fun acc tree => (walk tree).foldl ahfClassStep acc)
        ((0 : Nat), (0 : Nat)) = ((0 : Nat), (0 : Nat)) := by
      apply foldl_id_of
      intro a tree ht
      apply foldl_id_of
      intro b n hn
      have := hnc tree ht n hn
      cases n <;> simp [ahfClassStep]; simp [isClassNode] at this
    rw [hz]
    simp
  · rw [calculate_method_inheritance_factor]
    apply foldl_id_of
    intro a tree ht
    apply foldl_id_of
    intro b n hn
    have := hnc tree ht n hn
    cases n <;> simp [mifClassStep]; simp [isClassNode] at this
  · rw [calculate_method_polymorphism_factor]
    apply foldl_id_of
    intro a tree ht
    apply foldl_id_of
    intro b n hn
    have := hnc tree ht n hn
    cases n <;> simp [pfClassStep]; simp [isClassNode] at this
  · rw [calculate_lcom]
    apply foldl_id_of
    intro a tree ht
    apply foldl_id_of
    intro b n hn
    have := hnc tree ht n hn
    cases n <;> simp [lcomClassStep]; simp [isClassNode] at this

/-- Witness for c7_no_classes: a module holding only a function. -/
theorem c7_no_classes_witness :
    (∀ n ∈ walkAll [Node.module [.functionDef 1 "f" ["x"] [.passS 2]]], isClassNode n = false)
    ∧ count_coupling_between_objects [Node.module [.functionDef 1 "f" ["x"] [.passS 2]]] = []
    ∧ calculate_lcom [Node.module [.functionDef 1 "f" ["x"] [.passS 2]]] = [] := by
  refine ⟨by decide, ?_, ?_⟩
  · exact (c7_no_classes [Node.module [.functionDef 1 "f" ["x"] [.passS 2]]] (by decide)).1
  · exact (c7_no_classes [Node.module [.functionDef 1 "f" ["x"] [.passS 2]]] (by decide)).2.2.2.2.2

/-- C8: the average-based metrics return 0 instead of dividing by zero —
lines-per-file on the empty file list, and lines-per-method,
parameters-per-method and methods-per-class on inputs with no functions or
no classes (in particular on an empty parsed list). -/
theorem c8_average_metrics_empty :
    count_average_number_of_lines_per_file [] = 0
    ∧ (∀ parsed : List Node, (∀ n ∈ walkAll parsed, isFunctionNode n = false) →
        count_average_number_of_lines_per_method parsed = 0
        ∧ count_average_number_of_params_per_method_or_function parsed = 0)
    ∧ (∀ parsed : List Node, (∀ n ∈ walkAll parsed, isClassNode n = false) →
        count_average_number_of_methods_per_class parsed = 0) := by
  refine ⟨rfl, ?_, ?_⟩
  · intro parsed h
    have hnf : ∀ (tree : Node), tree ∈ parsed → ∀ n ∈ walk tree, isFunctionNode n = false :=
      fun tree ht n hn => h n (mem_walkAll_of_mem_walk ht hn)
    constructor
    · rw [count_average_number_of_lines_per_method]
      have hz : parsed.foldl (fun acc tree => (walk tree).foldl avgLinesMethodStep acc)
          ((0 : Nat), (0 : Nat)) = ((0 : Nat), (0 : Nat)) := by
        apply foldl_id_of
        intro a tree ht
        apply foldl_id_of
        intro b n hn
        have := hnf tree ht n hn
        cases n <;> simp [avgLinesMethodStep]; simp [isFunctionNode] at this
      rw [hz]
      simp
    · rw [count_average_number_of_params_per_method_or_function]
      have hz : parsed.foldl (fun acc tree => (walk tree).foldl avgParamsStep acc)
          ((0 : Nat), (0 : Nat)) = ((0 : Nat), (0 : Nat)) := by
        apply foldl_id_of
        intro a tree ht
        apply foldl_id_of
        intro b n hn
        have := hnf tree ht n hn
        cases n <;> simp [avgParamsStep]; simp [isFunctionNode] at this
      rw [hz]
      simp
  · intro parsed h
    have hnc : ∀ (tree : Node), tree ∈ parsed → ∀ n ∈ walk tree, isClassNode n = false :=
      fun tree ht n hn => h n (mem_walkAll_of_mem_walk ht hn)
    rw [count_average_number_of_methods_per_class]
    have hz : parsed.foldl (fun acc tree => (walk tree).foldl avgMethodsClassStep acc)
        ((0 : Nat), (0 : Nat)) = ((0 : Nat), (0 : Nat)) := by
      apply foldl_id_of
      intro a tree ht
      apply foldl_id_of
      intro b n hn
      have := hnc tree ht n hn
      cases n <;> simp [avgMethodsClassStep]; simp [isClassNode] at this
    rw [hz]
    simp

/-- Witness for c8_average_metrics_empty at the empty parsed list. -/
theorem c8_average_metrics_empty_witness :
    count_average_number_of_lines_per_method [] = 0
    ∧ count_average_number_of_params_per_method_or_function [] = 0
    ∧ count_average_number_of_methods_per_class [] = 0 := by
  refine ⟨(c8_average_metrics_empty.2.1 [] (by decide)).1,
    (c8_average_metrics_empty.2.1 [] (by decide)).2,
    c8_average_metrics_empty.2.2 [] (by decide)⟩

theorem dictGet_dictSet_self {α : Type} (d : List (String × α)) (k : String) (v : α) :
    dictGet (dictSet d k v) k = some v := by
  induction d with
  | nil => simp [dictSet, dictGet]
  | cons p rest ih =>
    by_cases hp : p.1 = k
    · have hany : ((p :: rest).any fun q => q.1 == k) = true := by
        simp [List.any_cons, hp]
      rw [dictSet, if_pos hany, List.map_cons, if_pos (by simp [hp])]
      simp [dictGet, List.find?_cons]
    · by_cases hr : (rest.any fun q => q.1 == k) = true
      · have hany : ((p :: rest).any fun q => q.1 == k) = true := by
          simp [List.any_cons, hr]
        rw [dictSet, if_pos hany, List.map_cons, if_neg (by simp [hp])]
        rw [dictGet, List.find?_cons_of_neg _ (by simp [hp])]
        have ih2 := ih
        rw [dictSet, if_pos hr, dictGet] at ih2
        exact ih2
      · have hany : ¬((p :: rest).any fun q => q.1 == k) = true := by
          simp [List.any_cons, hp]
          intro x hx
          by_contra hxk
          simp at hxk
          exact absurd (List.any_eq_true.mpr ⟨_, hx, by simp [hxk]⟩) hr
        rw [dictSet, if_neg hany]
        rw [dictGet, List.cons_append, List.find?_cons_of_neg _ (by simp [hp]),
          List.find?_append]
        have hnone : (rest.find? fun q => q.1 == k) = none := by
          rw [List.find?_eq_none]
          intro q hq hqk
          exact hr (List.any_eq_true.mpr ⟨q, hq, hqk⟩)
        rw [hnone]
        simp

theorem dictGet_dictSet_ne {α : Type} (d : List (String × α)) (k k2 : String) (v : α)
    (hne : k2 ≠ k) : dictGet (dictSet d k v) k2 = dictGet d k2 := by
  induction d with
  | nil => simp [dictSet, dictGet, Ne.symm hne]
  | cons p rest ih =>
    by_cases hc : ((p :: rest).any fun q => q.1 == k) = true
    · rw [dictSet, if_pos hc, List.map_cons]
      by_cases hp : p.1 = k
      · rw [if_pos (by simp [hp])]
        rw [dictGet, dictGet, List.find?_cons_of_neg _ (by simp [Ne.symm hne]),
          List.find?_cons_of_neg _ (by simp [hp, Ne.symm hne])]
        by_cases hr : (rest.any fun q => q.1 == k) = true
        · have ih2 := ih
          rw [dictSet, if_pos hr, dictGet, dictGet] at ih2
          exact ih2
        · have hmapid : rest.map (fun q => if q.1 == k then (k, v) else q) = rest := by
            have : ∀ q ∈ rest, (if q.1 == k then (k, v) else q) = q := by
              intro q hq
              rw [if_neg]
              intro hqk
              exact hr (List.any_eq_true.mpr ⟨q, hq, hqk⟩)
            rw [List.map_congr_left this]; exact List.map_id rest
          rw [hmapid]
      · rw [if_neg (by simp [hp])]
        by_cases hp2 : p.1 = k2
        · simp [dictGet, List.find?_cons, hp2]
        · rw [dictGet, dictGet, List.find?_cons_of_neg _ (by simp [hp2]),
            List.find?_cons_of_neg _ (by simp [hp2])]
          by_cases hr : (rest.any fun q => q.1 == k) = true
          · have ih2 := ih
            rw [dictSet, if_pos hr, dictGet, dictGet] at ih2
            exact ih2
          · have hmapid : rest.map (fun q => if q.1 == k then (k, v) else q) = rest := by
              have : ∀ q ∈ rest, (if q.1 == k then (k, v) else q) = q := by
                intro q hq
                rw [if_neg]
                intro hqk
                exact hr (List.any_eq_true.mpr ⟨q, hq, hqk⟩)
              rw [List.map_congr_left this]; exact List.map_id rest
            rw [hmapid]
    · rw [dictSet, if_neg hc]
      rw [dictGet, dictGet, List.find?_append]
      have h1 : ([(k, v)].find? fun q => q.1 == k2) = none := by
        simp [Ne.symm hne]
      rw [h1]
      simp

theorem insertAllPairs_notMem {α : Type} (d : List (String × α)) :
    ∀ (acc : List (String × α)) (k : String), k ∉ dictKeys d →
      dictGet (insertAllPairs acc d) k = dictGet acc k := by
  induction d with
  | nil => intro acc k _; rfl
  | cons p rest ih =>
    intro acc k hk
    have hk1 : k ∉ dictKeys rest := fun h => hk (List.mem_cons_of_mem _ h)
    have hkp : k ≠ p.1 := fun h => hk (by
      rw [dictKeys]
      exact List.mem_map.mpr ⟨p, List.mem_cons_self _ _, h.symm⟩)
    have h1 : dictGet (insertAllPairs (dictSet acc p.1 p.2) rest) k
        = dictGet (dictSet acc p.1 p.2) k := ih (dictSet acc p.1 p.2) k hk1
    exact h1.trans (dictGet_dictSet_ne acc p.1 k p.2 hkp)

theorem insertAllPairs_mem {α : Type} (d : List (String × α)) :
    ∀ (acc : List (String × α)) (k : String) (v : α), (dictKeys d).Nodup → (k, v) ∈ d →
      dictGet (insertAllPairs acc d) k = some v := by
  induction d with
  | nil => intro acc k v _ hkv; cases hkv
  | cons p rest ih =>
    intro acc k v hnd hkv
    have hnd2 : (dictKeys rest).Nodup := (List.nodup_cons.mp hnd).2
    rcases List.mem_cons.mp hkv with rfl | hmem
    · have hknot : k ∉ dictKeys rest := by
        have := (List.nodup_cons.mp hnd).1
        simpa [dictKeys] using this
      have h1 : dictGet (insertAllPairs (dictSet acc k v) rest) k
          = dictGet (dictSet acc k v) k := insertAllPairs_notMem rest (dictSet acc k v) k hknot
      exact h1.trans (dictGet_dictSet_self acc k v)
    · exact ih (dictSet acc p.1 p.2) k v hnd2 hmem

theorem foldl_insertAll_notMem {α : Type} (ds : List (List (String × α))) :
    ∀ (acc : List (String × α)) (k : String), (∀ d ∈ ds, k ∉ dictKeys d) →
      dictGet (ds.foldl insertAllPairs acc) k = dictGet acc k := by
  induction ds with
  | nil => intro acc k _; rfl
  | cons d ds ih =>
    intro acc k hk
    rw [List.foldl_cons]
    exact (ih (insertAllPairs acc d) k (fun d2 h2 => hk d2 (List.mem_cons_of_mem _ h2))).trans
      (insertAllPairs_notMem d acc k (hk d (List.mem_cons_self _ _)))


theorem foldl_insertAll_mem {α : Type} (ds : List (List (String × α))) :
    ∀ (acc : List (String × α)),
      ds.Pairwise (fun a b => ∀ k ∈ dictKeys a, k ∉ dictKeys b) →
      (∀ d ∈ ds, (dictKeys d).Nodup) →
      ∀ d ∈ ds, ∀ (k : String) (v : α), (k, v) ∈ d →
        dictGet (ds.foldl insertAllPairs acc) k = some v := by
  induction ds with
  | nil => intro acc _ _ d hd; cases hd
  | cons d0 ds ih =>
    intro acc hdisj hnd d hd k v hkv
    rcases List.pairwise_cons.mp hdisj with ⟨hd0, hrest⟩
    rcases List.mem_cons.mp hd with rfl | hmem
    · rw [List.foldl_cons]
      have hk0 : k ∈ dictKeys d := by
        rw [dictKeys]; exact List.mem_map.mpr ⟨(k, v), hkv, rfl⟩
      have hknot : ∀ d2 ∈ ds, k ∉ dictKeys d2 := fun d2 h2 => hd0 d2 h2 k hk0
      rw [foldl_insertAll_notMem ds (insertAllPairs acc d) k hknot]
      exact insertAllPairs_mem d acc k v (hnd d (List.mem_cons_self _ _)) hkv
    · rw [List.foldl_cons]
      exact ih (insertAllPairs acc d0) hrest
        (fun d2 h2 => hnd d2 (List.mem_cons_of_mem _ h2)) d hmem k v hkv

theorem mergeReports_preserves {α : Type} (ds : List (List (String × α)))
    (hdisj : (ds.map dictKeys).Pairwise (fun a b => ∀ k ∈ a, k ∉ b))
    (hnd : ∀ d ∈ ds, (dictKeys d).Nodup) :
    ∀ d ∈ ds, ∀ (k : String) (v : α), (k, v) ∈ d → dictGet (mergeReports ds) k = some v := by
  rw [mergeReports]
  exact foldl_insertAll_mem ds [] (List.pairwise_map.mp hdisj) hnd

/-- C9: the metric-name key lists of the nine analyzers merged by
ExtPythonStats.report are pairwise disjoint (and each is duplicate-free),
and for any dicts whose key lists are pairwise disjoint the destructive
union performed by report preserves every analyzer's bindings unchanged. -/
theorem c9_analyzer_keys_disjoint :
    analyzerKeyLists.Pairwise (fun a b => ∀ k ∈ a, k ∉ b)
    ∧ (∀ l ∈ analyzerKeyLists, l.Nodup)
    ∧ (∀ (α : Type) (ds : List (List (String × α))),
        (ds.map dictKeys).Pairwise (fun a b => ∀ k ∈ a, k ∉ b) →
        (∀ d ∈ ds, (dictKeys d).Nodup) →
        ∀ d ∈ ds, ∀ (k : String) (v : α), (k, v) ∈ d →
          dictGet (mergeReports ds) k = some v) := by
  refine ⟨by decide, by decide, ?_⟩
  intro α ds hdisj hnd d hd k v hkv
  exact mergeReports_preserves ds hdisj hnd d hd k v hkv

/-- Witness for c9_analyzer_keys_disjoint at concrete two-analyzer dicts. -/
theorem c9_analyzer_keys_disjoint_witness :
    dictGet (mergeReports [[("Coupling Between Objects", (1 : Nat))], [("LCOM", 2)]])
        "Coupling Between Objects" = some 1
    ∧ dictGet (mergeReports [[("Coupling Between Objects", (1 : Nat))], [("LCOM", 2)]])
        "LCOM" = some 2 := by
  constructor
  · exact c9_analyzer_keys_disjoint.2.2 Nat
      [[("Coupling Between Objects", 1)], [("LCOM", 2)]]
      (by decide) (by decide)
      [("Coupling Between Objects", 1)] (by decide)
      "Coupling Between Objects" 1 (by decide)
  · exact c9_analyzer_keys_disjoint.2.2 Nat
      [[("Coupling Between Objects", 1)], [("LCOM", 2)]]
      (by decide) (by decide)
      [("LCOM", 2)] (by decide)
      "LCOM" 2 (by decide)
